import Mathlib

/-!
Shallow embedding of the `matdb.database.basic.Group` orchestration state
machine (and the phonon pipeline gates from `matdb.database.phonon`) over an
explicit filesystem model, with theorems checking the natural-language
specification's claims against the code.

Filesystem side effects are modelled by an explicit `FS` state; Python
exceptions are modelled with `Except PyErr`.  File contents are `List Char`.
The `mmap` scanning in `can_cleanup` is modelled as pure substring search over
the file's content (the CPython corner case of mapping an empty file is not
modelled; the model treats an empty file as containing no marker).
-/

set_option autoImplicit false

namespace Matdb

/-- First-binding-wins association list lookup (Python dict access). -/
def alookup {κ α : Type} [DecidableEq κ] (l : List (κ × α)) (k : κ) : Option α :=
  match l with
  | [] => none
  | kv :: t => if kv.1 = k then some kv.2 else alookup t k

/-- Drop every binding of key `k`. -/
def eraseKey {κ α : Type} [DecidableEq κ] (l : List (κ × α)) (k : κ) :
    List (κ × α) :=
  l.filter (fun kv => kv.1 ≠ k)

/-- A filesystem entry: a directory, a regular file with content, or a
symbolic link to another path. -/
inductive Entry where
  | dir : Entry
  | file : List Char → Entry
  | link : String → Entry
deriving DecidableEq, Repr

/-- A filesystem: an association list from absolute path to entry.  The
first binding for a path wins, so updates cons a fresh binding in front. -/
structure FS where
  entries : List (String × Entry)
deriving DecidableEq, Repr

/-- `os.path.join` for the two-argument calls used in `basic.py`. -/
def pjoin (a b : String) : String := a ++ "/" ++ b

/-- Raw lookup of the entry bound to a path (no symlink resolution). -/
def FS.lookup (fs : FS) (p : String) : Option Entry := alookup fs.entries p

/-- Lookup resolving a single level of symbolic link, as `os.path.isfile`
and `open` follow links.  Chains of links are not modelled. -/
def FS.resolve (fs : FS) (p : String) : Option Entry :=
  match fs.lookup p with
  | some (Entry.link src) =>
    match fs.lookup src with
    | some (Entry.link _) => none
    | e => e
  | e => e

/-- `os.path.isdir`. -/
def FS.isdir (fs : FS) (p : String) : Bool :=
  match fs.resolve p with
  | some Entry.dir => true
  | _ => false

/-- `os.path.isfile`. -/
def FS.isfile (fs : FS) (p : String) : Bool :=
  match fs.resolve p with
  | some (Entry.file _) => true
  | _ => false

/-- Reading a file's content (`open` + read); `none` when the path does not
resolve to a regular file. -/
def FS.read (fs : FS) (p : String) : Option (List Char) :=
  match fs.resolve p with
  | some (Entry.file c) => some c
  | _ => none

/-- `os.stat(p).st_size`: `none` models the `OSError` raised on a missing
path.  Directories report a fixed block size. -/
def FS.stat (fs : FS) (p : String) : Option Nat :=
  match fs.resolve p with
  | some (Entry.file c) => some c.length
  | some Entry.dir => some 4096
  | _ => none

/-- Writing (creating or truncating) a regular file. -/
def FS.write (fs : FS) (p : String) (c : List Char) : FS :=
  ⟨(p, Entry.file c) :: eraseKey fs.entries p⟩

/-- `os.remove`. -/
def FS.remove (fs : FS) (p : String) : FS :=
  ⟨eraseKey fs.entries p⟩

/-- `os.mkdir`. -/
def FS.mkdir (fs : FS) (p : String) : FS :=
  ⟨(p, Entry.dir) :: eraseKey fs.entries p⟩

/-- Modelled from the spec: `matdb.utility.symlink` (the module is not in the
source tree) "symlinks shared resource files"; it (re)creates a symbolic link
at `p` pointing to `src`. -/
def FS.symlink (fs : FS) (p src : String) : FS :=
  ⟨(p, Entry.link src) :: eraseKey fs.entries p⟩

/-- Python exceptions relevant to this component. -/
inductive PyErr where
  | osError : String → PyErr
  | nameError : String → PyErr
deriving DecidableEq, Repr

/-! ### Substring scanning (the `mmap.rfind` / `in` operations) -/

/-- All indices at which `pat` occurs in `s`. -/
def matchIndices (s pat : List Char) : List Nat :=
  (List.range (s.length + 1)).filter (fun i => pat.isPrefixOf (s.drop i))

/-- `mmap.rfind`: the greatest index at which `pat` occurs in `s`, if any
(Python returns `-1` when there is none, modelled by `none`). -/
def rfind (s pat : List Char) : Option Nat := (matchIndices s pat).getLast?

/-- Python's substring containment test `pat in s`. -/
def containsSub (s pat : List Char) : Bool :=
  (List.range (s.length + 1)).any (fun i => pat.isPrefixOf (s.drop i))

/-- `m.seek(i); m.readline()`: the characters from index `i` up to and
including the next newline (or end of file). -/
def readlineFrom (s : List Char) (i : Nat) : List Char :=
  match (s.drop i).findIdx? (fun c => c = '\n') with
  | some j => (s.drop i).take (j + 1)
  | none => s.drop i

/-- The whole line of `s` containing index `i` (used to formalise the claim
wording "the line at the last occurrence"). -/
def lineAt (s : List Char) (i : Nat) : List Char :=
  ((s.take i).reverse.takeWhile (fun c => c ≠ '\n')).reverse ++ readlineFrom s i

def freeEnergyMarker : List Char := "free  energy".toList

def totenMarker : List Char := "TOTEN".toList

def errorMarker : List Char := "Error".toList

/-! ### The file probes of `basic.py` -/

def requiredInputs : List String := ["INCAR", "POSCAR", "KPOINTS", "POTCAR"]

/-- One iteration of the `for rfile in required` loop in `can_execute`:
`sizeok = stat(target).st_size > 25` (raising `OSError` when `target` is
absent) and then `present[rfile] = path.isfile(target) and sizeok`. -/
def inputPresent (fs : FS) (folder rfile : String) : Except PyErr Bool :=
  let target := pjoin folder rfile
  match fs.stat target with
  | none => Except.error (PyErr.osError target)
  | some size => Except.ok (fs.isfile target && decide (25 < size))

/-- The loop of `can_execute` over the required input files, collecting the
`present` values (the first missing path raises). -/
def presentList (fs : FS) (folder : String) :
    List String → Except PyErr (List Bool)
  | [] => Except.ok []
  | rfile :: rest => do
    let b ← inputPresent fs folder rfile
    let r ← presentList fs folder rest
    pure (b :: r)

/-- `matdb.database.basic.can_execute`. -/
def can_execute (fs : FS) (folder : String) : Except PyErr Bool :=
  if fs.isdir folder then do
    let present ← presentList fs folder requiredInputs
    pure (present.all id)
  else
    Except.ok false

/-- The `mmap` scan of `can_cleanup`: locate the last occurrence of
`'free  energy'`; the guard is `if i > 0`, so a match at offset `0` (and
`rfind`'s `-1` for no match) yields `line = None`. -/
def scanLastMarkerLine (content : List Char) : Option (List Char) :=
  match rfind content freeEnergyMarker with
  | some i => if 0 < i then some (readlineFrom content i) else none
  | none => none

/-- The second, identical scan performed in the `else` branch of
`can_cleanup`, which then tests for `'Error'`. -/
def secondScan (content : List Char) : Bool :=
  match scanLastMarkerLine content with
  | some line => containsSub line errorMarker
  | none => false

/-- `matdb.database.basic.can_cleanup`. -/
def can_cleanup (fs : FS) (folder : String) : Bool :=
  if fs.isdir folder then
    match fs.read (pjoin folder "OUTCAR") with
    | none => false
    | some content =>
      match scanLastMarkerLine content with
      | some line =>
        if containsSub line totenMarker then true else secondScan content
      | none => secondScan content
  else false

/-! ### Execution settings (the `execution` dicts merged by `jobfile`) -/

/-- A value in an execution-settings dictionary. -/
inductive SVal where
  | int : Int → SVal
  | str : String → SVal
deriving DecidableEq, Repr

/-- A Python dict of execution settings (association list, first binding
wins). -/
def Settings : Type := List (String × SVal)

instance : DecidableEq Settings := by
  unfold Settings
  infer_instance

/-- `settings[k]` lookup. -/
def getS (s : Settings) (k : String) : Option SVal := alookup s k

/-- `settings[k] = v`. -/
def setS (s : Settings) (k : String) (v : SVal) : Settings :=
  (k, v) :: eraseKey s k

/-- `del settings[k]`. -/
def delS (s : Settings) (k : String) : Settings :=
  eraseKey s k

/-- `base.copy()` followed by `base.update(upd.items())`. -/
def updateS (base upd : Settings) : Settings :=
  upd.foldl (fun acc kv => setS acc kv.1 kv.2) base

/-- The CPython 2 comparison `asize < settings["array_limit"]`: ordinary
order between integers; an `int` compares below any `str` (Python 2 orders
mixed types by type name). -/
def pyLtNat (n : Nat) (v : SVal) : Bool :=
  match v with
  | SVal.int m => decide ((n : Int) < m)
  | SVal.str _ => true

/-! ### Group data model -/

/-- The per-instance attributes of `Group` that the claims depend on:
`root`, `prefix` (spelled `prfx`), `name` (set by the concrete subclasses),
the ordered `configs` mapping from integer id to folder path, the expected
`nconfigs` (`none` models Python `None`), and the group-local `execution`
settings. -/
structure GroupConf where
  root : String
  prfx : String
  gname : String
  configs : List (Nat × String)
  nconfigs : Option Nat
  execution : Settings
deriving DecidableEq

/-- A `Group`: its own configuration data plus the (possibly empty)
`sequence` mapping of child groups.  The leaf/composite branch in every
method is `if not bool(self.sequence)`. -/
inductive Group where
  | node : GroupConf → List (String × Group) → Group

/-- The leaf branch of `Group.is_executing`: some `OUTCAR` exists among the
configs and some config fails `can_cleanup`. -/
def leafIsExecuting (fs : FS) (conf : GroupConf) : Bool :=
  let outcars := conf.configs.any (fun c => fs.isfile (pjoin c.2 "OUTCAR"))
  let busy := conf.configs.any (fun c => !(can_cleanup fs c.2))
  outcars && busy

/-- `Group.is_executing`.  The composite branch appends to the undefined
name `executin` (the list is declared as `executing`), so reaching it raises
`NameError` before any child is consulted. -/
def Group.is_executing (fs : FS) : Group → Except PyErr Bool
  | Group.node conf seq =>
    if seq.isEmpty then Except.ok (leafIsExecuting fs conf)
    else Except.error (PyErr.nameError "executin")

/-! ### `Group.status` -/

/-- The `ready[f] = can_execute(f)` loop of `status` (first raising config
propagates). -/
def readyList (fs : FS) : List (Nat × String) → Except PyErr (List (String × Bool))
  | [] => Except.ok []
  | c :: rest => do
    let b ← can_execute fs c.2
    let r ← readyList fs rest
    pure ((c.2, b) :: r)

/-- The `done[f] = can_cleanup(f)` values of `status`. -/
def doneList (fs : FS) (cs : List (Nat × String)) : List (String × Bool) :=
  cs.map (fun c => (c.2, can_cleanup fs c.2))

/-- The dictionary returned by `status(False)`. -/
structure StatusDetail where
  ready : List (String × Bool)
  done : List (String × Bool)
  nready : Nat
  ndone : Nat
  total : Nat
  busy : Bool
deriving DecidableEq, Repr

/-- `Group.status(print_msg=False)`: `ready`/`done` are computed over the
group's own `configs` only; `busy` comes from `is_executing()` (which raises
`NameError` on a composite group). -/
def Group.status (fs : FS) : Group → Except PyErr StatusDetail
  | Group.node conf seq => do
    let ready ← readyList fs conf.configs
    let done := doneList fs conf.configs
    let busy ← Group.is_executing fs (Group.node conf seq)
    pure { ready := ready
           done := done
           nready := (ready.filter (fun kv => kv.2)).length
           ndone := (done.filter (fun kv => kv.2)).length
           total := conf.configs.length
           busy := busy }

/-! ### `Group.jobfile` (leaf branch) -/

/-- Modelled from the spec: `matdb.utility.linecount` (the module is not in
the source tree); per the spec the recovery array size is the "count of
failed ids, read from the `failures` record", i.e. the number of
newline-separated lines of the file (0 for a missing or empty file). -/
def linecount (fs : FS) (p : String) : Nat :=
  match fs.read p with
  | some [] => 0
  | some c => (c.splitOn '\n').length
  | none => 0

/-- The settings dictionary passed to the template by `jobfile`: the global
(parent) execution settings updated with the group-local ones, plus
`execution_path` and `array_size`; `array_limit` is dropped when the array
size is below it. -/
def jobfileSettings (pexec gexec : Settings) (xpath : String) (asize : Nat) :
    Settings :=
  let merged := updateS pexec gexec
  let s1 := setS merged "execution_path" (SVal.str xpath)
  let s2 := setS s1 "array_size" (SVal.int (asize : Int))
  match getS s2 "array_limit" with
  | some v => if pyLtNat asize v then delS s2 "array_limit" else s2
  | none => s2

/-- The leaf branch of `Group.jobfile`.  `render` abstracts the jinja2
template rendering (template choice and all): the theorems quantify over it.
No-op when the target script exists and `rerun` is false; otherwise writes
the rendered script. -/
def leafJobfile (fs : FS) (render : Settings → List Char) (pexec : Settings)
    (conf : GroupConf) (rerun recovery : Bool) : FS :=
  let target := pjoin conf.root (if recovery then "recovery.sh" else "jobfile.sh")
  let xpath := if recovery then pjoin conf.root "failures"
               else pjoin conf.root (conf.prfx ++ ".")
  let asize := if recovery then linecount fs (pjoin conf.root "failures")
               else conf.configs.length
  if fs.isfile target && !rerun then fs
  else fs.write target (render (jobfileSettings pexec conf.execution xpath asize))

/-! ### `Group.recover` (leaf branch) -/

/-- `'\n'.join(failed)`. -/
def joinLines (xs : List String) : List Char :=
  (String.intercalate "\n" xs).toList

/-- The configs of a leaf group whose done-probe (`can_cleanup`) is false. -/
def failedEntries (fs : FS) (conf : GroupConf) : List (Nat × String) :=
  conf.configs.filter (fun c => !(can_cleanup fs c.2))

/-- The leaf branch of `Group.recover`: computes `status(False)`, collects
the keys of the `done` dictionary with false values, writes the `failures`
file and (re)creates `recovery.sh` via `jobfile` when there are failures,
and otherwise deletes any stale `recovery.sh` and `failures`. -/
def leafRecover (fs : FS) (render : Settings → List Char) (pexec : Settings)
    (conf : GroupConf) (rerun : Bool) : Except PyErr FS := do
  let detail ← Group.status fs (Group.node conf [])
  let failed := (detail.done.filter (fun kv => !kv.2)).map (fun kv => kv.1)
  let xpath := pjoin conf.root "failures"
  if 0 < failed.length then
    let fs1 := fs.write xpath (joinLines failed)
    pure (leafJobfile fs1 render pexec conf rerun true)
  else
    let jf := pjoin conf.root "recovery.sh"
    let fs1 := if fs.isfile jf then fs.remove jf else fs
    let fs2 := if fs1.isfile xpath then fs1.remove xpath else fs1
    pure fs2

/-! ### `Group.execute` (leaf branch) -/

/-- The `executors = {f: can_execute(f) ...}; all(executors.values())` check
of `execute` (exceptions from `can_execute` propagate in config order). -/
def allCanExecute (fs : FS) : List (Nat × String) → Except PyErr Bool
  | [] => Except.ok true
  | c :: rest => do
    let b ← can_execute fs c.2
    let r ← allCanExecute fs rest
    pure (b && r)

/-- `len(xres["output"]) > 0 and "Submitted" in xres["output"][0]`. -/
def submittedAck (out : List String) : Bool :=
  match out with
  | [] => false
  | first :: _ => containsSub first.toList "Submitted".toList

/-- Result of `execute`: the returned boolean plus whether the external
submission command was actually invoked. -/
structure ExecOutcome where
  result : Bool
  invoked : Bool
deriving DecidableEq, Repr

/-- The leaf branch of `Group.execute`.  `subOut` models the stdout lines of
the external `sbatch` invocation.  In recovery mode only the existence of
`recovery.sh` is checked; otherwise every config must pass `can_execute` and
no config may already have an `OUTCAR`.  `dryrun` skips the invocation and
returns true. -/
def leafExecute (fs : FS) (conf : GroupConf) (subOut : List String)
    (dryrun recovery : Bool) : Except PyErr ExecOutcome :=
  let jobname := if recovery then "recovery.sh" else "jobfile.sh"
  if !(fs.isfile (pjoin conf.root jobname)) then Except.ok ⟨false, false⟩
  else do
    let proceed ←
      if recovery then pure true
      else do
        let allOk ← allCanExecute fs conf.configs
        if !allOk then pure false
        else pure (!(conf.configs.any (fun c => fs.isfile (pjoin c.2 "OUTCAR"))))
    if !proceed then pure ⟨false, false⟩
    else if dryrun then pure ⟨true, false⟩
    else pure ⟨submittedAck subOut, true⟩

/-! ### `Group.create` (leaf branch) -/

/-- `configs[cid] = target` with Python dict semantics: replace the binding
when the key is present, append it otherwise. -/
def dictSet (m : List (Nat × String)) (k : Nat) (v : String) :
    List (Nat × String) :=
  if m.any (fun kv => kv.1 = k) then
    m.map (fun kv => if kv.1 = k then (k, v) else kv)
  else m ++ [(k, v)]

/-- The leaf branch of `Group.create`: allocate `len(configs) + 1` when no
`cid` is given, `mkdir` the target folder if absent, symlink the shared
`POTCAR` from two levels up (`parent.parent.root`, passed as `ppRoot`), and
record the mapping.  Returns the new filesystem, the updated group data,
and the config id used.  There is no duplicate-id check anywhere. -/
def leafCreate (fs : FS) (conf : GroupConf) (ppRoot : String)
    (cid? : Option Nat) : FS × GroupConf × Nat :=
  let cid := match cid? with
             | none => conf.configs.length + 1
             | some c => c
  let target := pjoin conf.root (conf.prfx ++ "." ++ toString cid)
  let fs1 := if fs.isdir target then fs else fs.mkdir target
  let fs2 := fs1.symlink (pjoin target "POTCAR") (pjoin ppRoot "POTCAR")
  (fs2, { conf with configs := dictSet conf.configs cid target }, cid)

/-! ### `Group.setup` -/

/-- The `confok` test of `setup`: `len(configs) == nconfigs or
(len(configs) > 0 and nconfigs is None)` (in Python 2 an `int == None`
comparison is false). -/
def leafConfOk (conf : GroupConf) : Bool :=
  (match conf.nconfigs with
   | some n => decide (conf.configs.length = n)
   | none => false)
  || (decide (0 < conf.configs.length) && conf.nconfigs.isNone)

mutual

/-- `Group.setup`: a leaf returns `confok or is_executing()`; a composite
collects the children's `setup()` results and returns their conjunction. -/
def Group.setup (fs : FS) : Group → Bool
  | Group.node conf seq =>
    if seq.isEmpty then leafConfOk conf || leafIsExecuting fs conf
    else setupList fs seq

/-- The `already_setup` fan-out loop of the composite branch of `setup`. -/
def setupList (fs : FS) : List (String × Group) → Bool
  | [] => true
  | (_, g) :: rest => Group.setup fs g && setupList fs rest

end

/-! ### Phonon pipeline gates (`matdb.database.phonon`) -/

/-- `PhononDFT.ready()`: existence of the DOS file `mesh.yaml` in the
phonopy directory of the dynamical-matrix stage. -/
def phononDFTReady (fs : FS) (phonodir : String) : Bool :=
  fs.isfile (pjoin phonodir "mesh.yaml")

/-- `PhononCalibration.ready()`: existence of the `calibration.dat` outfile
in the calibration group's root. -/
def calibrationReady (fs : FS) (outfile : String) : Bool :=
  fs.isfile outfile

/-- `PhononCalibration.setup(rerun)`.  The modulation work (the
`modulate_atoms` call, the `MPOSCAR` create loop and the final `jobfile`)
drives external phonopy output and is abstracted as `work`; the theorems
quantify over it.  Python's `setup` returns `None` on every path, modelled
as the second component `none`. -/
def calibrationSetup (fs : FS) (conf : GroupConf) (basePhonodir : String)
    (outfile : String) (work : FS → FS) : FS × Option Bool :=
  if Group.setup fs (Group.node conf []) then (fs, none)
  else if !(phononDFTReady fs basePhonodir) then (fs, none)
  else if calibrationReady fs outfile then (fs, none)
  else (work fs, none)

/-- `PhononDatabase.setup(rerun)`.  Gated on the base (dynamical-matrix)
stage's `ready()` and on a calibrated amplitude being available
(`self.amplitude is None` is the no-op guard); the modulation work is
abstracted as `work` as in `calibrationSetup`. -/
def phononDatabaseSetup {α : Type} (fs : FS) (conf : GroupConf)
    (basePhonodir : String) (amplitude : Option α) (work : FS → FS) :
    FS × Option Bool :=
  if Group.setup fs (Group.node conf []) then (fs, none)
  else if !(phononDFTReady fs basePhonodir) then (fs, none)
  else if amplitude.isNone then (fs, none)
  else (work fs, none)

/-! ### Formalisations of claim wordings (used to state counterexamples) -/

/-- `pat` occurs in `s` at index `i`. -/
def occursAt (s pat : List Char) (i : Nat) : Prop := pat <+: s.drop i

/-- The claim's wording for `can_cleanup`: "True iff the OUTCAR output file
exists in the folder and the line at the last occurrence of the completion
token, found by reverse scan from end of file, contains either the success
marker or a terminal-error marker". -/
def can_cleanup_claimed (fs : FS) (folder : String) : Bool :=
  match fs.read (pjoin folder "OUTCAR") with
  | none => false
  | some content =>
    match rfind content freeEnergyMarker with
    | some i =>
      containsSub (lineAt content i) totenMarker ||
      containsSub (lineAt content i) errorMarker
    | none => false

/-- The claim's wording for `recover` on a leaf group: a single call ends
normally in a state where, with an empty failure set, neither the `failures`
file nor `recovery.sh` remains and, with a non-empty failure set, the
`failures` file lists exactly the failed ids and `recovery.sh` exists. -/
def recoverClaim (fs : FS) (render : Settings → List Char) (pexec : Settings)
    (conf : GroupConf) (rerun : Bool) : Prop :=
  ∃ fs', leafRecover fs render pexec conf rerun = Except.ok fs' ∧
    (failedEntries fs conf = [] →
      fs'.isfile (pjoin conf.root "failures") = false ∧
      fs'.isfile (pjoin conf.root "recovery.sh") = false) ∧
    (failedEntries fs conf ≠ [] →
      fs'.read (pjoin conf.root "failures") =
        some (joinLines ((failedEntries fs conf).map (fun c => toString c.1))) ∧
      fs'.isfile (pjoin conf.root "recovery.sh") = true)

/-- The claim's wording for `execute` on a leaf group in a given mode:
unless the jobfile exists, every config passes `can_execute` and no config
already shows an `OUTCAR`, the call returns false without invoking the
submission command; and whenever the command is invoked the result is the
acknowledgment scan of its output. -/
def executeClaim (fs : FS) (conf : GroupConf) (subOut : List String)
    (dryrun recovery : Bool) : Prop :=
  ∀ o, leafExecute fs conf subOut dryrun recovery = Except.ok o →
    (¬ (fs.isfile (pjoin conf.root (if recovery then "recovery.sh" else "jobfile.sh")) = true ∧
        (∀ c ∈ conf.configs, can_execute fs c.2 = Except.ok true) ∧
        (∀ c ∈ conf.configs, fs.isfile (pjoin c.2 "OUTCAR") = false)) →
      o = ⟨false, false⟩) ∧
    (o.invoked = true → o.result = submittedAck subOut)

/-! ### Concrete fixtures for witnesses and counterexamples -/

/-- A renderer producing an empty script (the theorems hold for every
renderer; counterexamples fix this one). -/
def r0 : Settings → List Char := fun _ => []

/-- C2: a working directory that exists but has no `INCAR` in it. -/
def fsMissingInput : FS := ⟨[("/calc", Entry.dir)]⟩

/-- C4, input A: the completion marker occurs only at offset 0. -/
def fsCleanA : FS :=
  ⟨[("/d", Entry.dir), ("/d/OUTCAR", Entry.file "free  energy TOTEN\n".toList)]⟩

/-- C4, input B: the line holding the last marker contains `TOTEN` only
before the marker, so the code's `readline` from the marker misses it. -/
def fsCleanB : FS :=
  ⟨[("/d", Entry.dir),
    ("/d/OUTCAR", Entry.file "x\nTOTEN free  energy y\n".toList)]⟩

/-- C4 witness input: a realistic terminal OUTCAR line. -/
def fsCleanW : FS :=
  ⟨[("/d", Entry.dir),
    ("/d/OUTCAR", Entry.file "header\nfree  energy   TOTEN  =  -12.3\n".toList)]⟩

/-- C1, input A: a stale `failures` file, no `recovery.sh`, and a config
folder whose missing `INCAR` makes the status probe raise. -/
def confRecA : GroupConf :=
  { root := "/db", prfx := "S", gname := "g",
    configs := [(1, "/db/S.1")], nconfigs := some 1, execution := [] }

def fsRecA : FS :=
  ⟨[("/db", Entry.dir), ("/db/S.1", Entry.dir),
    ("/db/failures", Entry.file "old".toList)]⟩

/-- C1, input B: one fully prepared config with no output yet, so the
failure set is that config and recovery files get written. -/
def confRecB : GroupConf :=
  { root := "/db2", prfx := "S", gname := "g",
    configs := [(1, "/db2/S.1")], nconfigs := some 1, execution := [] }

def inputContent : List Char := "abcdefghijklmnopqrstuvwxyz".toList

def fsRecB : FS :=
  ⟨[("/db2", Entry.dir), ("/db2/S.1", Entry.dir),
    ("/db2/S.1/INCAR", Entry.file inputContent),
    ("/db2/S.1/POSCAR", Entry.file inputContent),
    ("/db2/S.1/KPOINTS", Entry.file inputContent),
    ("/db2/S.1/POTCAR", Entry.file inputContent)]⟩

/-- The filesystem produced by `recover` on the C1 input B fixture. -/
def fsRecBPost : FS :=
  match leafRecover fsRecB r0 [] confRecB false with
  | Except.ok fs' => fs'
  | Except.error _ => fsRecB

/-- C1, input C: a done config (terminal OUTCAR) with stale recovery files,
exercising the deletion branch for the amended theorem's witness. -/
def confRecC : GroupConf :=
  { root := "/db3", prfx := "S", gname := "g",
    configs := [(1, "/db3/S.1")], nconfigs := some 1, execution := [] }

def fsRecC : FS :=
  ⟨[("/db3", Entry.dir), ("/db3/S.1", Entry.dir),
    ("/db3/S.1/INCAR", Entry.file inputContent),
    ("/db3/S.1/POSCAR", Entry.file inputContent),
    ("/db3/S.1/KPOINTS", Entry.file inputContent),
    ("/db3/S.1/POTCAR", Entry.file inputContent),
    ("/db3/S.1/OUTCAR",
      Entry.file "header\nfree  energy   TOTEN  =  -12.3\n".toList),
    ("/db3/failures", Entry.file "/db3/S.1".toList),
    ("/db3/recovery.sh", Entry.file "#!".toList)]⟩

def fsRecCPost : FS :=
  match leafRecover fsRecC r0 [] confRecC false with
  | Except.ok fs' => fs'
  | Except.error _ => fsRecC

/-- C3 counterexample: recovery mode with `recovery.sh` present and a config
that already shows a terminal `OUTCAR`. -/
def confExeC : GroupConf :=
  { root := "/e", prfx := "S", gname := "g",
    configs := [(1, "/e/S.1")], nconfigs := some 1, execution := [] }

def fsExeC : FS :=
  ⟨[("/e", Entry.dir), ("/e/recovery.sh", Entry.file "#!".toList),
    ("/e/S.1", Entry.dir),
    ("/e/S.1/OUTCAR",
      Entry.file "header\nfree  energy   TOTEN  =  -12.3\n".toList)]⟩

def sbatchOut : List String := ["Submitted batch job 4242"]

/-- C3 witness: a fresh, fully prepared leaf group in normal mode. -/
def confExeW : GroupConf :=
  { root := "/w", prfx := "S", gname := "g",
    configs := [(1, "/w/S.1")], nconfigs := some 1, execution := [] }

def fsExeW : FS :=
  ⟨[("/w", Entry.dir), ("/w/jobfile.sh", Entry.file "#!".toList),
    ("/w/S.1", Entry.dir),
    ("/w/S.1/INCAR", Entry.file inputContent),
    ("/w/S.1/POSCAR", Entry.file inputContent),
    ("/w/S.1/KPOINTS", Entry.file inputContent),
    ("/w/S.1/POTCAR", Entry.file inputContent)]⟩

/-- C3 witness, second input: normal mode with `jobfile.sh` present but a
config already showing a terminal `OUTCAR`, so the double-submission guard
fails and nothing is invoked. -/
def confExeN : GroupConf :=
  { root := "/n", prfx := "S", gname := "g",
    configs := [(1, "/n/S.1")], nconfigs := some 1, execution := [] }

def fsExeN : FS :=
  ⟨[("/n", Entry.dir), ("/n/jobfile.sh", Entry.file "#!".toList),
    ("/n/S.1", Entry.dir),
    ("/n/S.1/INCAR", Entry.file inputContent),
    ("/n/S.1/POSCAR", Entry.file inputContent),
    ("/n/S.1/KPOINTS", Entry.file inputContent),
    ("/n/S.1/POTCAR", Entry.file inputContent),
    ("/n/S.1/OUTCAR",
      Entry.file "header\nfree  energy   TOTEN  =  -12.3\n".toList)]⟩

/-- C5/C9: a composite group (non-empty sequence) whose child has a config
with a finished OUTCAR. -/
def confSeqChild : GroupConf :=
  { root := "/db9/seed-1", prfx := "S", gname := "g",
    configs := [(1, "/db9/seed-1/S.1")], nconfigs := some 1, execution := [] }

def confSeqTop : GroupConf :=
  { root := "/db9", prfx := "S", gname := "g",
    configs := [], nconfigs := none, execution := [] }

def compositeGroup : Group :=
  Group.node confSeqTop [("seed-1", Group.node confSeqChild [])]

def fsSeq : FS :=
  ⟨[("/db9", Entry.dir), ("/db9/seed-1", Entry.dir),
    ("/db9/seed-1/S.1", Entry.dir),
    ("/db9/seed-1/S.1/OUTCAR",
      Entry.file "header\nfree  energy   TOTEN  =  -12.3\n".toList)]⟩

/-- C6 witness: a leaf child that is fully set up, under a composite. -/
def confSetupChild : GroupConf :=
  { root := "/s/a", prfx := "S", gname := "g",
    configs := [], nconfigs := some 0, execution := [] }

def confSetupTop : GroupConf :=
  { root := "/s", prfx := "S", gname := "g",
    configs := [], nconfigs := some 5, execution := [] }

/-- C8: a group that already records cid 1 at a path different from the
deterministic target (so re-creating 1 is not idempotent-identical). -/
def confDup : GroupConf :=
  { root := "/c", prfx := "S", gname := "g",
    configs := [(1, "/other/place")], nconfigs := some 2, execution := [] }

def fsCre : FS := ⟨[("/c", Entry.dir)]⟩

/-- C10 witness: settings with an `array_limit` above the array size. -/
def pexecW : Settings := [("template", SVal.str "run.sh"), ("array_limit", SVal.int 5)]

def confJobW : GroupConf :=
  { root := "/j", prfx := "S", gname := "g",
    configs := [(1, "/j/S.1")], nconfigs := some 1, execution := [] }

def fsJobW : FS := ⟨[("/j", Entry.dir)]⟩

/-- C7 witness: no `mesh.yaml` anywhere, so the upstream gate is closed. -/
def confPhon : GroupConf :=
  { root := "/p/phoncalib", prfx := "C", gname := "phoncalib",
    configs := [], nconfigs := some 10, execution := [] }

def fsPhon : FS := ⟨[("/p", Entry.dir), ("/p/phondft", Entry.dir)]⟩

/-! ## Helper lemmas -/

theorem alookup_eraseKey_self {α : Type} (l : List (String × α)) (q : String) :
    alookup (eraseKey l q) q = none := by
  induction l with
  | nil => rfl
  | cons kv t ih =>
    by_cases hk : kv.1 = q
    · have h1 : eraseKey (kv :: t) q = eraseKey t q := by
        simp [eraseKey, List.filter_cons, hk]
      rw [h1]; exact ih
    · have h1 : eraseKey (kv :: t) q = kv :: eraseKey t q := by
        simp [eraseKey, List.filter_cons, hk]
      rw [h1, show alookup (kv :: eraseKey t q) q =
            if kv.1 = q then some kv.2 else alookup (eraseKey t q) q from rfl,
          if_neg hk]
      exact ih

theorem alookup_eraseKey_ne {α : Type} (l : List (String × α)) {p q : String}
    (h : p ≠ q) : alookup (eraseKey l q) p = alookup l p := by
  induction l with
  | nil => rfl
  | cons kv t ih =>
    by_cases hk : kv.1 = q
    · have h1 : eraseKey (kv :: t) q = eraseKey t q := by
        simp [eraseKey, List.filter_cons, hk]
      have h2 : kv.1 ≠ p := fun he => h (he.symm.trans hk)
      rw [h1, ih,
          show alookup (kv :: t) p =
            if kv.1 = p then some kv.2 else alookup t p from rfl,
          if_neg h2]
    · have h1 : eraseKey (kv :: t) q = kv :: eraseKey t q := by
        simp [eraseKey, List.filter_cons, hk]
      rw [h1,
          show alookup (kv :: eraseKey t q) p =
            if kv.1 = p then some kv.2 else alookup (eraseKey t q) p from rfl,
          show alookup (kv :: t) p =
            if kv.1 = p then some kv.2 else alookup t p from rfl]
      by_cases hp : kv.1 = p
      · rw [if_pos hp, if_pos hp]
      · rw [if_neg hp, if_neg hp, ih]

theorem FS.lookup_write (fs : FS) (q : String) (c : List Char) (p : String) :
    (fs.write q c).lookup p =
      if p = q then some (Entry.file c) else fs.lookup p := by
  by_cases h : p = q
  · simp [FS.write, FS.lookup, alookup, h]
  · simp [FS.write, FS.lookup, alookup, h, Ne.symm h,
          alookup_eraseKey_ne fs.entries h]

theorem FS.lookup_remove (fs : FS) (q p : String) :
    (fs.remove q).lookup p = if p = q then none else fs.lookup p := by
  by_cases h : p = q
  · simp [FS.remove, FS.lookup, h, alookup_eraseKey_self]
  · simp [FS.remove, FS.lookup, h, alookup_eraseKey_ne fs.entries h]

theorem FS.lookup_mkdir (fs : FS) (q p : String) :
    (fs.mkdir q).lookup p = if p = q then some Entry.dir else fs.lookup p := by
  by_cases h : p = q
  · simp [FS.mkdir, FS.lookup, alookup, h]
  · simp [FS.mkdir, FS.lookup, alookup, h, Ne.symm h,
          alookup_eraseKey_ne fs.entries h]

theorem FS.lookup_symlink (fs : FS) (q src p : String) :
    (fs.symlink q src).lookup p =
      if p = q then some (Entry.link src) else fs.lookup p := by
  by_cases h : p = q
  · simp [FS.symlink, FS.lookup, alookup, h]
  · simp [FS.symlink, FS.lookup, alookup, h, Ne.symm h,
          alookup_eraseKey_ne fs.entries h]

theorem FS.read_of_lookup_file {fs : FS} {p : String} {c : List Char}
    (h : fs.lookup p = some (Entry.file c)) : fs.read p = some c := by
  simp [FS.read, FS.resolve, h]

theorem FS.isfile_of_lookup_file {fs : FS} {p : String} {c : List Char}
    (h : fs.lookup p = some (Entry.file c)) : fs.isfile p = true := by
  simp [FS.isfile, FS.resolve, h]

theorem FS.isfile_of_lookup_none {fs : FS} {p : String}
    (h : fs.lookup p = none) : fs.isfile p = false := by
  simp [FS.isfile, FS.resolve, h]

theorem FS.isdir_of_lookup_dir {fs : FS} {p : String}
    (h : fs.lookup p = some Entry.dir) : fs.isdir p = true := by
  simp [FS.isdir, FS.resolve, h]

/-- Deleting a path never makes another path a file. -/
theorem FS.isfile_remove_false {fs : FS} {p : String}
    (h : fs.isfile p = false) (q : String) :
    (fs.remove q).isfile p = false := by
  by_cases hpq : p = q
  · simp [FS.isfile, FS.resolve, FS.lookup_remove, hpq]
  · cases he : fs.lookup p with
    | none => simp [FS.isfile, FS.resolve, FS.lookup_remove, hpq, he]
    | some e =>
      cases e with
      | dir => simp [FS.isfile, FS.resolve, FS.lookup_remove, hpq, he]
      | file c => simp [FS.isfile, FS.resolve, he] at h
      | link src =>
        by_cases hsq : src = q
        · simp [FS.isfile, FS.resolve, FS.lookup_remove, hpq, he, hsq]
        · cases hs : fs.lookup src with
          | none => simp [FS.isfile, FS.resolve, FS.lookup_remove, hpq, he, hsq, hs]
          | some e2 =>
            cases e2 with
            | dir => simp [FS.isfile, FS.resolve, FS.lookup_remove, hpq, he, hsq, hs]
            | file c2 => simp [FS.isfile, FS.resolve, he, hs] at h
            | link s2 =>
              simp [FS.isfile, FS.resolve, FS.lookup_remove, hpq, he, hsq, hs]

theorem string_data_inj {a b : String} (h : a.data = b.data) : a = b :=
  congrArg String.mk h

theorem string_data_append (a b : String) : (a ++ b).data = a.data ++ b.data := rfl

theorem pjoin_ne_right {a b : String} (r : String) (h : a ≠ b) :
    pjoin r a ≠ pjoin r b := by
  intro he
  apply h
  have hd := congrArg String.data he
  rw [pjoin, pjoin, string_data_append, string_data_append] at hd
  exact string_data_inj (List.append_cancel_left hd)

theorem self_ne_pjoin (a b : String) : a ≠ pjoin a b := by
  intro he
  have hd := congrArg String.data he
  rw [pjoin, string_data_append, string_data_append] at hd
  have hlen := congrArg List.length hd
  rw [List.length_append, List.length_append] at hlen
  have h1 : ("/" : String).data.length = 1 := rfl
  omega

theorem getS_setS_self (s : Settings) (k : String) (v : SVal) :
    getS (setS s k v) k = some v := by
  simp [getS, setS, alookup]

theorem getS_setS_ne (s : Settings) {k k' : String} (v : SVal) (h : k' ≠ k) :
    getS (setS s k v) k' = getS s k' := by
  simp only [getS, setS, alookup, Ne.symm h, if_false]
  exact alookup_eraseKey_ne s h

theorem getS_delS_self (s : Settings) (k : String) :
    getS (delS s k) k = none := by
  simp only [getS, delS]
  exact alookup_eraseKey_self s k

theorem allCanExecute_ok_true {fs : FS} :
    ∀ {cs : List (Nat × String)}, allCanExecute fs cs = Except.ok true →
      ∀ c ∈ cs, can_execute fs c.2 = Except.ok true := by
  intro cs
  induction cs with
  | nil => intro _ c hc; cases hc
  | cons a t ih =>
    intro h c hc
    cases hb : can_execute fs a.2 with
    | error e =>
      rw [allCanExecute, hb] at h
      simp [Bind.bind, Except.bind] at h
    | ok b =>
      cases hr : allCanExecute fs t with
      | error e =>
        rw [allCanExecute, hb, hr] at h
        simp [Bind.bind, Except.bind] at h
      | ok r =>
        rw [allCanExecute, hb, hr] at h
        simp only [Bind.bind, Except.bind, Pure.pure, Except.pure,
                   Except.ok.injEq] at h
        have hb' : b = true := by
          cases b
          · simp at h
          · rfl
        have hr' : r = true := by
          cases r
          · rw [hb'] at h; simp at h
          · rfl
        rcases List.mem_cons.mp hc with hc2 | hc2
        · rw [hc2]; rw [hb'] at hb; exact hb
        · exact ih (hr' ▸ hr) c hc2

theorem setupList_eq_true (fs : FS) :
    ∀ (l : List (String × Group)),
      (setupList fs l = true ↔ ∀ p ∈ l, Group.setup fs p.2 = true) := by
  intro l
  induction l with
  | nil => simp [setupList]
  | cons a t ih =>
    rw [setupList, Bool.and_eq_true, ih]
    constructor
    · rintro ⟨h1, h2⟩ p hp
      rcases List.mem_cons.mp hp with hp | hp
      · rw [hp]; exact h1
      · exact h2 p hp
    · intro h
      exact ⟨h a (List.mem_cons_self a t), fun p hp => h p (List.mem_cons_of_mem a hp)⟩

theorem is_executing_leaf (fs : FS) (conf : GroupConf) :
    Group.is_executing fs (Group.node conf []) =
      Except.ok (leafIsExecuting fs conf) := rfl

theorem status_leaf_ok {fs : FS} {conf : GroupConf} {d : StatusDetail}
    (h : Group.status fs (Group.node conf []) = Except.ok d) :
    d.done = doneList fs conf.configs := by
  rw [Group.status] at h
  cases hr : readyList fs conf.configs with
  | error e =>
    rw [hr] at h
    simp [Bind.bind, Except.bind] at h
  | ok r =>
    rw [hr, is_executing_leaf] at h
    simp only [Bind.bind, Except.bind, Pure.pure, Except.pure,
               Except.ok.injEq] at h
    rw [← h]

/-- The failed keys collected by `recover` are the paths of the configs
failing `can_cleanup`. -/
theorem doneList_failed (fs : FS) (cs : List (Nat × String)) :
    ((doneList fs cs).filter (fun kv => !kv.2)).map (fun kv => kv.1) =
      (cs.filter (fun c => !(can_cleanup fs c.2))).map (fun c => c.2) := by
  induction cs with
  | nil => rfl
  | cons a t ih =>
    by_cases h : can_cleanup fs a.2
    · simp [doneList, List.filter_cons, h] at ih ⊢
      exact ih
    · simp only [Bool.not_eq_true] at h
      simp [doneList, List.filter_cons, h] at ih ⊢
      exact ih

theorem occursAt_le_length {s pat : List Char} {i : Nat} (hpat : pat ≠ [])
    (h : occursAt s pat i) : i ≤ s.length := by
  by_contra hgt
  have hnil : s.drop i = [] := List.drop_eq_nil_of_le (by omega)
  rw [occursAt, hnil, List.prefix_nil] at h
  exact hpat h

theorem mem_matchIndices {s pat : List Char} {i : Nat} :
    i ∈ matchIndices s pat ↔ i ≤ s.length ∧ occursAt s pat i := by
  rw [matchIndices, List.mem_filter, List.mem_range, Nat.lt_succ_iff, occursAt]
  simp [List.isPrefixOf_iff_prefix]

theorem sorted_getLast_max :
    ∀ {l : List Nat}, l.Pairwise (· < ·) → ∀ {x : Nat}, l.getLast? = some x →
      x ∈ l ∧ ∀ y ∈ l, y ≤ x := by
  intro l
  induction l with
  | nil => intro _ x hx; cases hx
  | cons a t ih =>
    intro hp x hx
    cases t with
    | nil =>
      have hax : a = x := by
        have : (a :: ([] : List Nat)).getLast? = some a := rfl
        rw [this] at hx
        exact Option.some.inj hx
      subst hax
      exact ⟨List.mem_singleton_self a, by intro y hy; rw [List.mem_singleton.mp hy]⟩
    | cons b t2 =>
      have hx' : (b :: t2).getLast? = some x := by
        rw [← List.getLast?_cons_cons]
        exact hx
      have hp' := (List.pairwise_cons.mp hp).2
      have hlt := (List.pairwise_cons.mp hp).1
      obtain ⟨hmem, hmax⟩ := ih hp' hx'
      refine ⟨List.mem_cons_of_mem a hmem, ?_⟩
      intro y hy
      rcases List.mem_cons.mp hy with hy | hy
      · rw [hy]
        exact Nat.le_of_lt (hlt x hmem)
      · exact hmax y hy

theorem matchIndices_pairwise (s pat : List Char) :
    (matchIndices s pat).Pairwise (· < ·) :=
  List.Pairwise.filter _ (List.pairwise_lt_range _)

theorem rfind_eq_some_spec {s pat : List Char} {i : Nat} (hpat : pat ≠ [])
    (h : rfind s pat = some i) :
    occursAt s pat i ∧ ∀ j, occursAt s pat j → j ≤ i := by
  obtain ⟨hmem, hmax⟩ := sorted_getLast_max (matchIndices_pairwise s pat) h
  refine ⟨(mem_matchIndices.mp hmem).2, ?_⟩
  intro j hj
  exact hmax j (mem_matchIndices.mpr ⟨occursAt_le_length hpat hj, hj⟩)

theorem rfind_eq_none_spec {s pat : List Char} (hpat : pat ≠ [])
    (h : rfind s pat = none) : ∀ j, ¬ occursAt s pat j := by
  intro j hj
  have hempty : matchIndices s pat = [] := List.getLast?_eq_none_iff.mp h
  have : j ∈ matchIndices s pat :=
    mem_matchIndices.mpr ⟨occursAt_le_length hpat hj, hj⟩
  rw [hempty] at this
  cases this

theorem rfind_eq_some_of_max {s pat : List Char} {i : Nat} (hpat : pat ≠ [])
    (hocc : occursAt s pat i) (hmax : ∀ j, occursAt s pat j → j ≤ i) :
    rfind s pat = some i := by
  cases hr : rfind s pat with
  | none => exact absurd hocc (rfind_eq_none_spec hpat hr i)
  | some m =>
    obtain ⟨hoccm, hmaxm⟩ := rfind_eq_some_spec hpat hr
    have h1 : m ≤ i := hmax m hoccm
    have h2 : i ≤ m := hmaxm i hocc
    rw [Nat.le_antisymm h2 h1]

theorem containsSub_iff {s pat : List Char} :
    containsSub s pat = true ↔ ∃ i, occursAt s pat i := by
  rw [containsSub, List.any_eq_true]
  constructor
  · rintro ⟨i, _, hp⟩
    exact ⟨i, (List.isPrefixOf_iff_prefix).mp hp⟩
  · rintro ⟨i, hi⟩
    by_cases hpat : pat = []
    · refine ⟨0, ?_, ?_⟩
      · exact List.mem_range.mpr (by omega)
      · rw [hpat]; simp [List.isPrefixOf]
    · refine ⟨i, ?_, ?_⟩
      · exact List.mem_range.mpr (Nat.lt_succ_of_le (occursAt_le_length hpat hi))
      · exact (List.isPrefixOf_iff_prefix).mpr hi

theorem getS_delS_ne (s : Settings) {k k' : String} (h : k' ≠ k) :
    getS (delS s k) k' = getS s k' := by
  simp only [getS, delS]
  exact alookup_eraseKey_ne s h

/-! ## Claim theorems -/

/-- C2: the claim says `can_execute`, `can_cleanup` and `Group.is_executing`
never raise and return false on any missing path.  The code contradicts it
(and its own `path.isfile(target) and sizeok` guard, whose `os.stat` call
runs first): `can_execute` on an existing folder with a missing required
input file raises `OSError`.  The other conjuncts show the probes do degrade
to false on a missing folder / missing output file. -/
theorem can_execute_raises_on_missing_input :
    can_execute fsMissingInput "/calc" =
      Except.error (PyErr.osError "/calc/INCAR") ∧
    can_execute fsMissingInput "/nofolder" = Except.ok false ∧
    can_cleanup fsMissingInput "/calc" = false ∧
    Group.is_executing fsMissingInput
      (Group.node { root := "/calc", prfx := "S", gname := "g",
                    configs := [(1, "/calc/S.1")], nconfigs := some 1,
                    execution := [] } []) = Except.ok false :=
  ⟨rfl, rfl, by decide, rfl⟩

/-- C5: the claim says a composite group's `is_executing` returns the
conjunction over its children without raising; the code appends to the
undefined name `executin`, so any composite group raises `NameError`
before consulting a single child. -/
theorem is_executing_composite_name_error (fs : FS) (conf : GroupConf)
    (child : String × Group) (rest : List (String × Group)) :
    Group.is_executing fs (Group.node conf (child :: rest)) =
      Except.error (PyErr.nameError "executin") := rfl

/-- C9: the claim says `status` on a composite group with an empty own
`configs` mapping reports ready 0/0 and done 0/0; because `status` takes its
`busy` flag from `is_executing()`, whose composite branch raises `NameError`
(`executin`), `status` on a composite group raises instead of reporting.
The second conjunct shows the child's config is finished, so the error does
not depend on the children's state. -/
theorem status_composite_name_error :
    Group.status fsSeq compositeGroup =
      Except.error (PyErr.nameError "executin") ∧
    can_cleanup fsSeq "/db9/seed-1/S.1" = true :=
  ⟨rfl, by decide⟩

/-- C10: whenever `jobfile` actually renders (target absent or `rerun`),
and the merged execution settings carry an `array_limit` greater than the
computed array size, the key is deleted before rendering: the settings the
template sees have no `array_limit` (and carry the computed `array_size`). -/
theorem jobfile_array_limit (fs : FS) (render : Settings → List Char)
    (pexec : Settings) (conf : GroupConf) (rerun recovery : Bool) (L : Int)
    (hwrite : (fs.isfile (pjoin conf.root
        (if recovery then "recovery.sh" else "jobfile.sh")) && !rerun) = false)
    (hlimit : getS (updateS pexec conf.execution) "array_limit" =
      some (SVal.int L))
    (hsize : (((if recovery then linecount fs (pjoin conf.root "failures")
                else conf.configs.length) : Nat) : Int) < L) :
    ∃ s, leafJobfile fs render pexec conf rerun recovery =
        fs.write (pjoin conf.root
          (if recovery then "recovery.sh" else "jobfile.sh")) (render s) ∧
      getS s "array_limit" = none ∧
      getS s "array_size" =
        some (SVal.int (((if recovery then
            linecount fs (pjoin conf.root "failures")
          else conf.configs.length) : Nat) : Int)) := by
  refine ⟨jobfileSettings pexec conf.execution
      (if recovery then pjoin conf.root "failures"
       else pjoin conf.root (conf.prfx ++ "."))
      (if recovery then linecount fs (pjoin conf.root "failures")
       else conf.configs.length), ?_, ?_, ?_⟩
  · rw [leafJobfile, hwrite]
    simp
  · rw [jobfileSettings]
    have h1 : getS (setS (setS (updateS pexec conf.execution)
        "execution_path" (SVal.str (if recovery then pjoin conf.root "failures"
          else pjoin conf.root (conf.prfx ++ "."))))
        "array_size" (SVal.int (((if recovery then
            linecount fs (pjoin conf.root "failures")
          else conf.configs.length) : Nat) : Int))) "array_limit" =
        some (SVal.int L) := by
      rw [getS_setS_ne _ _ (by decide), getS_setS_ne _ _ (by decide), hlimit]
    rw [h1]
    have h2 : pyLtNat (if recovery then linecount fs (pjoin conf.root "failures")
        else conf.configs.length) (SVal.int L) = true := by
      rw [pyLtNat]
      exact decide_eq_true hsize
    simp only [h2, if_true]
    exact getS_delS_self _ _
  · rw [jobfileSettings]
    have h1 : getS (setS (setS (updateS pexec conf.execution)
        "execution_path" (SVal.str (if recovery then pjoin conf.root "failures"
          else pjoin conf.root (conf.prfx ++ "."))))
        "array_size" (SVal.int (((if recovery then
            linecount fs (pjoin conf.root "failures")
          else conf.configs.length) : Nat) : Int))) "array_limit" =
        some (SVal.int L) := by
      rw [getS_setS_ne _ _ (by decide), getS_setS_ne _ _ (by decide), hlimit]
    rw [h1]
    have h2 : pyLtNat (if recovery then linecount fs (pjoin conf.root "failures")
        else conf.configs.length) (SVal.int L) = true := by
      rw [pyLtNat]
      exact decide_eq_true hsize
    simp only [h2, if_true]
    rw [getS_delS_ne _ (by decide)]
    exact getS_setS_self _ _ _

/-- C10 witness: a concrete fresh jobfile render below the array limit. -/
theorem jobfile_array_limit_witness :
    ∃ s, leafJobfile fsJobW r0 pexecW confJobW false false =
        fsJobW.write (pjoin confJobW.root
          (if false then "recovery.sh" else "jobfile.sh")) (r0 s) ∧
      getS s "array_limit" = none ∧
      getS s "array_size" =
        some (SVal.int (((if false then
            linecount fsJobW (pjoin confJobW.root "failures")
          else confJobW.configs.length) : Nat) : Int)) :=
  jobfile_array_limit fsJobW r0 pexecW confJobW false false 5
    (by decide) (by decide) (by decide)

/-- C7: a dependent phonon stage's `setup()` while the upstream `ready()`
probe is false is a guarded no-op: the filesystem is unchanged (no config
directories created), the model is total (no exception), and the returned
value is Python's falsy `None`.  This holds for any modulation work and for
`PhononDatabase` additionally whenever no calibrated amplitude exists. -/
theorem phonon_setup_gated {α : Type} (fs : FS) (confC confD : GroupConf)
    (basePhonodir outfile : String) (amp : Option α) (workC workD : FS → FS) :
    (phononDFTReady fs basePhonodir = false →
       calibrationSetup fs confC basePhonodir outfile workC = (fs, none) ∧
       phononDatabaseSetup fs confD basePhonodir amp workD = (fs, none)) ∧
    (amp = none →
       phononDatabaseSetup fs confD basePhonodir amp workD = (fs, none)) := by
  constructor
  · intro h
    constructor
    · rw [calibrationSetup]
      cases hs : Group.setup fs (Group.node confC []) <;> simp [hs, h]
    · rw [phononDatabaseSetup]
      cases hs : Group.setup fs (Group.node confD []) <;> simp [hs, h]
  · intro h
    subst h
    rw [phononDatabaseSetup]
    cases hs : Group.setup fs (Group.node confD []) <;>
      cases hd : phononDFTReady fs basePhonodir <;> simp [hs, hd]

/-- C7 witness: with no `mesh.yaml` present, both stage setups are no-ops
on a concrete filesystem. -/
theorem phonon_setup_gated_witness :
    calibrationSetup fsPhon confPhon "/p/phondft/phonopy"
      (pjoin "/p/phoncalib" "calibration.dat") id = (fsPhon, none) ∧
    phononDatabaseSetup fsPhon confPhon "/p/phondft/phonopy"
      (none : Option Int) id = (fsPhon, none) := by
  have h := phonon_setup_gated fsPhon confPhon confPhon "/p/phondft/phonopy"
    (pjoin "/p/phoncalib" "calibration.dat") (none : Option Int) id id
  exact ⟨(h.1 (by decide)).1, (h.1 (by decide)).2⟩

/-- C6: `setup()` on a leaf group returns true exactly when the config count
equals the expected `nconfigs` (or is positive with `nconfigs` unspecified)
or the group is currently executing; on a composite group it returns the
conjunction of the children's `setup()` results.  The model's `setup` is a
pure function of the filesystem, so no setup work is repeated. -/
theorem setup_spec (fs : FS) (conf : GroupConf) (seq : List (String × Group)) :
    (Group.setup fs (Group.node conf []) = true ↔
       conf.nconfigs = some conf.configs.length ∨
       (conf.nconfigs = none ∧ 0 < conf.configs.length) ∨
       leafIsExecuting fs conf = true) ∧
    (seq ≠ [] →
       (Group.setup fs (Group.node conf seq) = true ↔
          ∀ p ∈ seq, Group.setup fs p.2 = true)) := by
  constructor
  · rw [Group.setup]
    simp only [List.isEmpty_nil, if_true]
    rw [Bool.or_eq_true, leafConfOk, Bool.or_eq_true, Bool.and_eq_true]
    cases hn : conf.nconfigs with
    | none => simp
    | some n =>
      simp only [Option.isNone_some]
      constructor
      · rintro ((h | ⟨h1, h2⟩) | h)
        · exact Or.inl (by rw [Option.some.injEq]; exact (of_decide_eq_true h).symm)
        · cases h2
        · exact Or.inr (Or.inr h)
      · rintro (h | ⟨h1, h2⟩ | h)
        · exact Or.inl (Or.inl (decide_eq_true (Option.some.inj h).symm))
        · cases h1
        · exact Or.inr h
  · intro hne
    cases seq with
    | nil => exact absurd rfl hne
    | cons a t =>
      rw [Group.setup]
      simp only [List.isEmpty_cons, Bool.false_eq_true, if_false]
      exact setupList_eq_true fs (a :: t)

/-- C6 witness: a composite group whose single leaf child is fully set up
(config count matches `nconfigs`) returns true. -/
theorem setup_spec_witness :
    Group.setup (FS.mk []) (Group.node confSetupTop
      [("a", Group.node confSetupChild [])]) = true := by
  have h := setup_spec (FS.mk []) confSetupTop
    [("a", Group.node confSetupChild [])]
  apply (h.2 (by simp)).mpr
  intro p hp
  rcases List.mem_cons.mp hp with hp2 | hp2
  · rw [hp2]
    exact ((setup_spec (FS.mk []) confSetupChild []).1).mpr (Or.inl (by decide))
  · simp at hp2

theorem alookup_map_set_self :
    ∀ (m : List (Nat × String)) (k : Nat) (v : String),
      m.any (fun kv => kv.1 = k) = true →
      alookup (m.map (fun kv => if kv.1 = k then (k, v) else kv)) k = some v := by
  intro m k v h
  induction m with
  | nil => cases h
  | cons a t ih =>
    by_cases ha : a.1 = k
    · simp [alookup, ha]
    · have h' : t.any (fun kv => kv.1 = k) = true := by
        simpa [List.any_cons, ha] using h
      simp [alookup, ha, ih h']

theorem alookup_map_set_ne :
    ∀ (m : List (Nat × String)) (k : Nat) (v : String) {k' : Nat}, k' ≠ k →
      alookup (m.map (fun kv => if kv.1 = k then (k, v) else kv)) k' =
        alookup m k' := by
  intro m k v k' hk
  induction m with
  | nil => rfl
  | cons a t ih =>
    by_cases ha : a.1 = k
    · have hak : a.1 ≠ k' := fun he => hk (he.symm.trans ha)
      simp [alookup, ha, Ne.symm hk, hak, ih]
    · simp only [List.map_cons, if_neg ha]
      by_cases hak : a.1 = k'
      · simp [alookup, hak]
      · simp [alookup, hak, ih]

theorem alookup_append_single_self :
    ∀ (m : List (Nat × String)) (k : Nat) (v : String),
      m.any (fun kv => kv.1 = k) = false →
      alookup (m ++ [(k, v)]) k = some v := by
  intro m k v h
  induction m with
  | nil => simp [alookup]
  | cons a t ih =>
    have ha : a.1 ≠ k := by
      intro he
      simp [List.any_cons, he] at h
    have h' : t.any (fun kv => kv.1 = k) = false := by
      simpa [List.any_cons, ha] using h
    simp [alookup, ha, ih h']

theorem alookup_append_single_ne :
    ∀ (m : List (Nat × String)) (k : Nat) (v : String) {k' : Nat}, k' ≠ k →
      alookup (m ++ [(k, v)]) k' = alookup m k' := by
  intro m k v k' hk
  induction m with
  | nil => simp [alookup, Ne.symm hk]
  | cons a t ih =>
    by_cases ha : a.1 = k'
    · simp [alookup, ha, ih]
    · simp [alookup, ha, ih]

theorem alookup_dictSet_self (m : List (Nat × String)) (k : Nat) (v : String) :
    alookup (dictSet m k v) k = some v := by
  rw [dictSet]
  cases h : m.any (fun kv => kv.1 = k) with
  | true => simp only [if_true]; exact alookup_map_set_self m k v h
  | false => simp only [Bool.false_eq_true, if_false]
             exact alookup_append_single_self m k v h

theorem alookup_dictSet_ne (m : List (Nat × String)) (k : Nat) (v : String)
    {k' : Nat} (hk : k' ≠ k) :
    alookup (dictSet m k v) k' = alookup m k' := by
  rw [dictSet]
  cases h : m.any (fun kv => kv.1 = k) with
  | true => simp only [if_true]; exact alookup_map_set_ne m k v hk
  | false => simp only [Bool.false_eq_true, if_false]
             exact alookup_append_single_ne m k v hk

/-- C8 counterexample: the claim says `create` with an already-present `cid`
that is not idempotent-identical fails with a `DuplicateConfigError`; no such
error exists anywhere in the code.  Here cid 1 is recorded at a different
path, yet `create(atoms, 1)` completes normally and silently overwrites the
mapping with the deterministic target path. -/
theorem create_duplicate_counterexample :
    alookup confDup.configs 1 = some "/other/place" ∧
    (leafCreate fsCre confDup "/pp" (some 1)).2.1.configs =
      [(1, pjoin "/c" "S.1")] ∧
    (leafCreate fsCre confDup "/pp" (some 1)).2.2 = 1 :=
  ⟨by decide, by decide, rfl⟩

/-- C8 (amended): `create(atoms)` with no explicit cid allocates
`len(configs) + 1`, creates the `root/prefix.cid` directory when absent and
records the id-to-path mapping (preserving all other entries); an explicit,
already-present cid is silently re-bound to the same deterministic target
path instead of failing — no `DuplicateConfigError` exists in the code. -/
theorem create_spec (fs : FS) (conf : GroupConf) (ppRoot : String)
    (cid? : Option Nat) :
    (leafCreate fs conf ppRoot cid?).2.2 =
      (match cid? with
       | none => conf.configs.length + 1
       | some c => c) ∧
    (fs.isdir (pjoin conf.root
        (conf.prfx ++ "." ++ toString (leafCreate fs conf ppRoot cid?).2.2)) =
          false →
      (leafCreate fs conf ppRoot cid?).1.isdir
        (pjoin conf.root
          (conf.prfx ++ "." ++ toString (leafCreate fs conf ppRoot cid?).2.2)) =
        true) ∧
    alookup (leafCreate fs conf ppRoot cid?).2.1.configs
        (leafCreate fs conf ppRoot cid?).2.2 =
      some (pjoin conf.root
        (conf.prfx ++ "." ++ toString (leafCreate fs conf ppRoot cid?).2.2)) ∧
    (∀ k, k ≠ (leafCreate fs conf ppRoot cid?).2.2 →
      alookup (leafCreate fs conf ppRoot cid?).2.1.configs k =
        alookup conf.configs k) := by
  have hcid : (leafCreate fs conf ppRoot cid?).2.2 =
      (match cid? with
       | none => conf.configs.length + 1
       | some c => c) := by
    cases cid? <;> rfl
  refine ⟨hcid, ?_, ?_, ?_⟩
  · intro hdir
    cases cid? with
    | none =>
      have hne := self_ne_pjoin
        (pjoin conf.root (conf.prfx ++ "." ++ toString (conf.configs.length + 1)))
        "POTCAR"
      rw [leafCreate] at hdir ⊢
      simp only at hdir ⊢
      rw [hdir]
      simp only [Bool.false_eq_true, if_false]
      rw [FS.isdir, FS.resolve, FS.lookup_symlink, if_neg hne,
          FS.lookup_mkdir, if_pos rfl]
    | some c =>
      have hne := self_ne_pjoin
        (pjoin conf.root (conf.prfx ++ "." ++ toString c)) "POTCAR"
      rw [leafCreate] at hdir ⊢
      simp only at hdir ⊢
      rw [hdir]
      simp only [Bool.false_eq_true, if_false]
      rw [FS.isdir, FS.resolve, FS.lookup_symlink, if_neg hne,
          FS.lookup_mkdir, if_pos rfl]
  · cases cid? with
    | none => exact alookup_dictSet_self _ _ _
    | some c => exact alookup_dictSet_self _ _ _
  · intro k hk
    cases cid? with
    | none => exact alookup_dictSet_ne _ _ _ hk
    | some c => exact alookup_dictSet_ne _ _ _ hk

/-- C8 witness: creating with no explicit cid on a group holding one config
allocates cid 2, creates `/c/S.2`, records the mapping and keeps cid 1. -/
theorem create_spec_witness :
    (leafCreate fsCre confDup "/pp" none).2.2 = 2 ∧
    (leafCreate fsCre confDup "/pp" none).1.isdir
      (pjoin "/c" ("S" ++ "." ++ toString 2)) = true ∧
    alookup (leafCreate fsCre confDup "/pp" none).2.1.configs 2 =
      some (pjoin "/c" ("S" ++ "." ++ toString 2)) ∧
    alookup (leafCreate fsCre confDup "/pp" none).2.1.configs 1 =
      some "/other/place" := by
  have h := create_spec fsCre confDup "/pp" none
  refine ⟨h.1, ?_, ?_, ?_⟩
  · have h2 := h.2.1 (by decide)
    rw [h.1] at h2
    exact h2
  · have h3 := h.2.2.1
    rw [h.1] at h3
    exact h3
  · have h4 := h.2.2.2 1 (by rw [h.1]; decide)
    rw [h4]
    decide

/-- C3 counterexample: in recovery mode with `recovery.sh` present, the code
invokes the submission command and returns the acknowledgment even though a
config already shows a terminal `OUTCAR` (and `can_execute` is never
consulted), contradicting the claim that every mode checks all three
preconditions. -/
theorem execute_recovery_counterexample :
    ¬ executeClaim fsExeC confExeC sbatchOut false true := by
  intro h
  have h2 := h ⟨true, true⟩ rfl
  have h3 := h2.1 ?_
  · exact absurd h3 (by decide)
  · rintro ⟨_, _, houtcar⟩
    have hx := houtcar (1, "/e/S.1") (List.mem_cons_self _ _)
    exact absurd hx (by decide)

/-- C3 (amended): on a leaf group, when `execute` returns normally: a missing
jobfile (the mode's one) yields false without invocation; in non-recovery
mode the call returns false without invoking the command unless `jobfile.sh`
exists, every config passes `can_execute` and no config already shows an
`OUTCAR`; whenever the submission command is invoked, the jobfile existed,
`dryrun` was off, in non-recovery mode all those guards passed, and the
returned boolean is the "Submitted" acknowledgment scan of the command's
output; in recovery mode the only precondition is that `recovery.sh`
exists — the command is then invoked unconditionally. -/
theorem execute_preconditions (fs : FS) (conf : GroupConf)
    (subOut : List String) (dryrun recovery : Bool) (o : ExecOutcome)
    (h : leafExecute fs conf subOut dryrun recovery = Except.ok o) :
    (fs.isfile (pjoin conf.root
        (if recovery then "recovery.sh" else "jobfile.sh")) = false →
      o = ⟨false, false⟩) ∧
    (recovery = false →
      ¬ (fs.isfile (pjoin conf.root "jobfile.sh") = true ∧
         (∀ c ∈ conf.configs, can_execute fs c.2 = Except.ok true) ∧
         (∀ c ∈ conf.configs, fs.isfile (pjoin c.2 "OUTCAR") = false)) →
      o = ⟨false, false⟩) ∧
    (o.invoked = true →
      dryrun = false ∧
      fs.isfile (pjoin conf.root
        (if recovery then "recovery.sh" else "jobfile.sh")) = true ∧
      (recovery = false →
        (∀ c ∈ conf.configs, can_execute fs c.2 = Except.ok true) ∧
        (∀ c ∈ conf.configs, fs.isfile (pjoin c.2 "OUTCAR") = false)) ∧
      o.result = submittedAck subOut) ∧
    (recovery = true → dryrun = false →
      fs.isfile (pjoin conf.root "recovery.sh") = true →
      o = ⟨submittedAck subOut, true⟩) := by
  rw [leafExecute] at h
  cases hjf : fs.isfile (pjoin conf.root
      (if recovery then "recovery.sh" else "jobfile.sh")) with
  | false =>
    rw [hjf] at h
    simp only [Bool.not_false, if_true, Except.ok.injEq] at h
    refine ⟨fun _ => h.symm, fun _ _ => h.symm, ?_, ?_⟩
    · intro hinv
      rw [← h] at hinv
      cases hinv
    · intro hrec _ hisf
      rw [hrec] at hjf
      rw [if_pos rfl] at hjf
      rw [hjf] at hisf
      cases hisf
  | true =>
    rw [hjf] at h
    simp only [Bool.not_true, Bool.false_eq_true, if_false] at h
    cases recovery with
    | true =>
      simp only [if_true, Bind.bind, Except.bind, Pure.pure, Except.pure,
                 Bool.not_true, Bool.false_eq_true, if_false] at h
      cases dryrun with
      | true =>
        simp only [if_true, Except.ok.injEq] at h
        refine ⟨fun hf => (nomatch hf), fun hrec => (nomatch hrec), ?_, ?_⟩
        · intro hinv
          rw [← h] at hinv
          cases hinv
        · intro _ hdry
          cases hdry
      | false =>
        simp only [Bool.false_eq_true, if_false, Except.ok.injEq] at h
        refine ⟨fun hf => (nomatch hf), fun hrec => (nomatch hrec), ?_, ?_⟩
        · intro _
          refine ⟨rfl, rfl, fun hrec => (nomatch hrec), ?_⟩
          rw [← h]
        · intro _ _ _
          exact h.symm
    | false =>
      simp only [Bool.false_eq_true, if_false, Bind.bind, Except.bind] at h
      have hjf2 : fs.isfile (pjoin conf.root "jobfile.sh") = true := by
        simpa using hjf
      cases hall : allCanExecute fs conf.configs with
      | error e => rw [hall] at h; cases h
      | ok allOk =>
        rw [hall] at h
        cases allOk with
        | false =>
          simp only [Bool.not_false, if_true, Pure.pure, Except.pure,
                     Bool.false_eq_true, Bool.not_true, if_false,
                     Except.ok.injEq] at h
          refine ⟨fun _ => h.symm, fun _ _ => h.symm, ?_, ?_⟩
          · intro hinv
            rw [← h] at hinv
            cases hinv
          · intro hrec
            cases hrec
        | true =>
          simp only [Bool.not_true, Bool.false_eq_true, if_false,
                     Pure.pure, Except.pure] at h
          cases hany : conf.configs.any (fun c => fs.isfile (pjoin c.2 "OUTCAR")) with
          | true =>
            rw [hany] at h
            simp only [Bool.not_true, Bool.false_eq_true, if_false,
                       Bool.not_false, if_true, Except.ok.injEq] at h
            refine ⟨fun _ => h.symm, fun _ _ => h.symm, ?_, ?_⟩
            · intro hinv
              rw [← h] at hinv
              cases hinv
            · intro hrec
              cases hrec
          | false =>
            rw [hany] at h
            simp only [Bool.not_false, Bool.not_true, Bool.false_eq_true,
                       if_false, if_true] at h
            have hguards : fs.isfile (pjoin conf.root "jobfile.sh") = true ∧
                (∀ c ∈ conf.configs, can_execute fs c.2 = Except.ok true) ∧
                (∀ c ∈ conf.configs, fs.isfile (pjoin c.2 "OUTCAR") = false) := by
              refine ⟨hjf2, allCanExecute_ok_true hall, ?_⟩
              intro c hc
              have := List.any_eq_false.mp hany c hc
              simpa using this
            cases dryrun with
            | true =>
              simp only [if_true, Except.ok.injEq] at h
              refine ⟨fun hf => (nomatch hf),
                fun _ hnot => absurd hguards hnot, ?_, ?_⟩
              · intro hinv
                rw [← h] at hinv
                cases hinv
              · intro _ hdry
                cases hdry
            | false =>
              simp only [Bool.false_eq_true, if_false, Except.ok.injEq] at h
              refine ⟨fun hf => (nomatch hf),
                fun _ hnot => absurd hguards hnot, ?_, ?_⟩
              · intro _
                refine ⟨rfl, rfl, fun _ => ⟨hguards.2.1, hguards.2.2⟩, ?_⟩
                rw [← h]
              · intro hrec
                cases hrec

/-- C3 witness: a fully prepared leaf group in normal mode invokes the
command and the result is the acknowledgment scan; with the same group but
an `OUTCAR` already present, the guards fail and the call returns false
without invoking. -/
theorem execute_preconditions_witness :
    ((∀ c ∈ confExeW.configs, can_execute fsExeW c.2 = Except.ok true) ∧
     (∀ c ∈ confExeW.configs, fsExeW.isfile (pjoin c.2 "OUTCAR") = false) ∧
     (true : Bool) = submittedAck sbatchOut) ∧
    leafExecute fsExeN confExeN sbatchOut false false =
      Except.ok ⟨false, false⟩ := by
  constructor
  · have h := execute_preconditions fsExeW confExeW sbatchOut false false
      ⟨true, true⟩ rfl
    have h2 := h.2.2.1 rfl
    exact ⟨(h2.2.2.1 rfl).1, (h2.2.2.1 rfl).2, h2.2.2.2⟩
  · have h := execute_preconditions fsExeN confExeN sbatchOut false false
      ⟨false, false⟩ rfl
    have h3 := h.2.1 rfl (by
      rintro ⟨_, _, hout⟩
      exact absurd (hout (1, "/n/S.1") (List.mem_cons_self _ _)) (by decide))
    exact h3 ▸ rfl

/-- After `jobfile(recovery=True)` the `recovery.sh` target exists, and the
filesystem is otherwise either untouched or extended by exactly that one
written file. -/
theorem leafJobfile_recovery_spec (fs : FS) (render : Settings → List Char)
    (pexec : Settings) (conf : GroupConf) (rerun : Bool) :
    (leafJobfile fs render pexec conf rerun true).isfile
        (pjoin conf.root "recovery.sh") = true ∧
    (leafJobfile fs render pexec conf rerun true = fs ∨
     ∃ content, leafJobfile fs render pexec conf rerun true =
        fs.write (pjoin conf.root "recovery.sh") content) := by
  cases hc : fs.isfile (pjoin conf.root "recovery.sh") && !rerun with
  | true =>
    have h1 : leafJobfile fs render pexec conf rerun true = fs := by
      rw [leafJobfile]
      simp [hc]
    have h2 : fs.isfile (pjoin conf.root "recovery.sh") = true := by
      simp only [Bool.and_eq_true] at hc
      exact hc.1
    rw [h1]
    exact ⟨h2, Or.inl rfl⟩
  | false =>
    have h1 : leafJobfile fs render pexec conf rerun true =
        fs.write (pjoin conf.root "recovery.sh")
          (render (jobfileSettings pexec conf.execution
            (pjoin conf.root "failures")
            (linecount fs (pjoin conf.root "failures")))) := by
      rw [leafJobfile]
      simp [hc]
    rw [h1]
    refine ⟨FS.isfile_of_lookup_file (by rw [FS.lookup_write, if_pos rfl]),
      Or.inr ⟨_, rfl⟩⟩

/-- C1 counterexample: the claim promises that any single `recover()` call
leaves `failures` and `recovery.sh` paired, the `failures` file listing the
failed ids.  Input A has a stale `failures` file, no `recovery.sh` and a
config directory whose missing `INCAR` makes the status probe raise
`OSError`: `recover` aborts, leaving the unpaired state, although the
failure set is non-empty.  Input B completes, but writes the failed configs'
directory paths — not their integer ids — into `failures`. -/
theorem recover_pairing_counterexample :
    ¬ recoverClaim fsRecA r0 [] confRecA false ∧
    ¬ recoverClaim fsRecB r0 [] confRecB false := by
  constructor
  · rintro ⟨fs', hok, _, _⟩
    rw [show leafRecover fsRecA r0 [] confRecA false =
        Except.error (PyErr.osError "/db/S.1/INCAR") from rfl] at hok
    cases hok
  · rintro ⟨fs', hok, _, hne⟩
    have hfs' : fsRecBPost = fs' := by
      have hev : leafRecover fsRecB r0 [] confRecB false =
          Except.ok fsRecBPost := by rfl
      rw [hev] at hok
      exact Except.ok.inj hok
    have h2 := hne (by decide)
    rw [← hfs'] at h2
    have h3 := h2.1
    rw [show fsRecBPost.read (pjoin confRecB.root "failures") =
        some ("/db2/S.1".toList) from by decide] at h3
    exact absurd h3 (by decide)

/-- C1 (amended): whenever a single `recover(rerun)` call on a leaf group
returns without raising, its root holds the `failures` file and the
`recovery.sh` jobfile together or not at all: an empty failure set leaves
neither, and a non-empty failure set leaves the `failures` file listing
exactly the failed configs' directory paths (newline-joined, in `configs`
order) with `recovery.sh` present.  (A config whose missing input file makes
the status probe raise aborts `recover` with that exception instead.) -/
theorem recover_pairing (fs : FS) (render : Settings → List Char)
    (pexec : Settings) (conf : GroupConf) (rerun : Bool) (fs' : FS)
    (h : leafRecover fs render pexec conf rerun = Except.ok fs') :
    (failedEntries fs conf = [] →
      fs'.isfile (pjoin conf.root "failures") = false ∧
      fs'.isfile (pjoin conf.root "recovery.sh") = false) ∧
    (failedEntries fs conf ≠ [] →
      fs'.read (pjoin conf.root "failures") =
        some (joinLines ((failedEntries fs conf).map (fun c => c.2))) ∧
      fs'.isfile (pjoin conf.root "recovery.sh") = true) := by
  rw [leafRecover] at h
  cases hs : Group.status fs (Group.node conf []) with
  | error e =>
    rw [hs] at h
    simp only [Bind.bind, Except.bind] at h
    cases h
  | ok d =>
    rw [hs] at h
    simp only [Bind.bind, Except.bind] at h
    have hdone := status_leaf_ok hs
    have hfail : (d.done.filter (fun kv => !kv.2)).map (fun kv => kv.1) =
        (failedEntries fs conf).map (fun c => c.2) := by
      rw [hdone, failedEntries]
      exact doneList_failed fs conf.configs
    by_cases hemp : failedEntries fs conf = []
    · have hf0 : ((d.done.filter (fun kv => !kv.2)).map (fun kv => kv.1)).length = 0 := by
        rw [hfail, hemp]
        rfl
      rw [hf0, if_neg (by omega : ¬ (0:Nat) < 0)] at h
      simp only [Pure.pure, Except.pure, Except.ok.injEq] at h
      refine ⟨fun _ => ?_, fun hne => absurd hemp hne⟩
      have hjf1 : (if fs.isfile (pjoin conf.root "recovery.sh") then
          fs.remove (pjoin conf.root "recovery.sh") else fs).isfile
          (pjoin conf.root "recovery.sh") = false := by
        cases hrm : fs.isfile (pjoin conf.root "recovery.sh") with
        | true =>
          simp only [if_true]
          exact FS.isfile_of_lookup_none (by rw [FS.lookup_remove, if_pos rfl])
        | false =>
          simp only [Bool.false_eq_true, if_false]
          exact hrm
      rw [← h]
      constructor
      · cases hxp : (if fs.isfile (pjoin conf.root "recovery.sh") then
            fs.remove (pjoin conf.root "recovery.sh") else fs).isfile
            (pjoin conf.root "failures") with
        | true =>
          simp only [hxp, if_true]
          exact FS.isfile_of_lookup_none (by rw [FS.lookup_remove, if_pos rfl])
        | false =>
          simp only [hxp, Bool.false_eq_true, if_false]
      · cases hxp : (if fs.isfile (pjoin conf.root "recovery.sh") then
            fs.remove (pjoin conf.root "recovery.sh") else fs).isfile
            (pjoin conf.root "failures") with
        | true =>
          simp only [hxp, if_true]
          exact FS.isfile_remove_false hjf1 _
        | false =>
          simp only [hxp, Bool.false_eq_true, if_false]
          exact hjf1
    · have hlen : 0 < ((d.done.filter (fun kv => !kv.2)).map (fun kv => kv.1)).length := by
        rw [hfail, List.length_map]
        exact List.length_pos.mpr hemp
      rw [if_pos hlen] at h
      simp only [Pure.pure, Except.pure, Except.ok.injEq] at h
      refine ⟨fun he => absurd he hemp, fun _ => ?_⟩
      rw [← h, hfail]
      have hne2 : pjoin conf.root "failures" ≠ pjoin conf.root "recovery.sh" :=
        pjoin_ne_right conf.root (by decide)
      obtain ⟨htarget, hrest⟩ := leafJobfile_recovery_spec
        (fs.write (pjoin conf.root "failures")
          (joinLines ((failedEntries fs conf).map (fun c => c.2))))
        render pexec conf rerun
      refine ⟨?_, htarget⟩
      rcases hrest with hrest | ⟨content, hrest⟩
      · rw [hrest]
        exact FS.read_of_lookup_file (by rw [FS.lookup_write, if_pos rfl])
      · rw [hrest]
        apply FS.read_of_lookup_file
        rw [FS.lookup_write, if_neg hne2, FS.lookup_write, if_pos rfl]

/-- C1 witness: on input B (one failed config) `recover` pairs the written
`failures` file with `recovery.sh`; on input C (all configs finished, stale
recovery files) it deletes both. -/
theorem recover_pairing_witness :
    (fsRecBPost.read (pjoin confRecB.root "failures") =
       some (joinLines ((failedEntries fsRecB confRecB).map (fun c => c.2))) ∧
     fsRecBPost.isfile (pjoin confRecB.root "recovery.sh") = true) ∧
    (fsRecCPost.isfile (pjoin confRecC.root "failures") = false ∧
     fsRecCPost.isfile (pjoin confRecC.root "recovery.sh") = false) := by
  constructor
  · exact (recover_pairing fsRecB r0 [] confRecB false fsRecBPost rfl).2
      (by decide)
  · exact (recover_pairing fsRecC r0 [] confRecC false fsRecCPost rfl).1
      (by decide)

/-- C4 counterexample: the claim's reading of `can_cleanup` ("the line at
the last occurrence of the completion token contains TOTEN or Error") is
false on two inputs: (A) the marker's only occurrence is at offset 0, which
the code's `if i > 0` guard treats as not found; (B) `TOTEN` appears on the
marker's line but before the marker, while the code only reads the line
from the marker onwards. -/
theorem can_cleanup_counterexample :
    (can_cleanup fsCleanA "/d" = false ∧
     can_cleanup_claimed fsCleanA "/d" = true) ∧
    (can_cleanup fsCleanB "/d" = false ∧
     can_cleanup_claimed fsCleanB "/d" = true) :=
  ⟨⟨by decide, by decide⟩, ⟨by decide, by decide⟩⟩

/-- C4 (amended): `can_cleanup(folder)` returns true iff the folder exists,
its `OUTCAR` is readable, the last occurrence of the completion token
`'free  energy'` sits at a strictly positive offset (an occurrence at
offset 0 counts as absent), and the rest of that line from the marker
onwards contains `'TOTEN'` or `'Error'` — so a run terminated by an error
still counts as done. -/
theorem can_cleanup_spec (fs : FS) (folder : String) :
    can_cleanup fs folder = true ↔
      fs.isdir folder = true ∧
      ∃ c, fs.read (pjoin folder "OUTCAR") = some c ∧
        ∃ i, 0 < i ∧ occursAt c freeEnergyMarker i ∧
          (∀ j, occursAt c freeEnergyMarker j → j ≤ i) ∧
          ((∃ k, occursAt (readlineFrom c i) totenMarker k) ∨
           (∃ k, occursAt (readlineFrom c i) errorMarker k)) := by
  have hfm : freeEnergyMarker ≠ [] := by decide
  cases hd : fs.isdir folder with
  | false => simp [can_cleanup, hd]
  | true =>
    cases hr : fs.read (pjoin folder "OUTCAR") with
    | none => simp [can_cleanup, hd, hr]
    | some c =>
      cases hf : rfind c freeEnergyMarker with
      | none =>
        have hscan : scanLastMarkerLine c = none := by
          rw [scanLastMarkerLine, hf]
        have hss : secondScan c = false := by rw [secondScan, hscan]
        simp only [can_cleanup, hd, if_true, hr, hscan, hss]
        constructor
        · intro hl
          cases hl
        · rintro ⟨_, c', hc', i, _, hocc, _, _⟩
          have hcc : c' = c := (Option.some.inj hc').symm
          rw [hcc] at hocc
          exact absurd hocc (rfind_eq_none_spec hfm hf i)
      | some i0 =>
        by_cases h0 : 0 < i0
        · have hscan : scanLastMarkerLine c = some (readlineFrom c i0) := by
            rw [scanLastMarkerLine]
            simp only [hf]
            rw [if_pos h0]
          have hss : secondScan c =
              containsSub (readlineFrom c i0) errorMarker := by
            rw [secondScan, hscan]
          obtain ⟨hocc0, hmax0⟩ := rfind_eq_some_spec hfm hf
          have hlhs : can_cleanup fs folder = true ↔
              (containsSub (readlineFrom c i0) totenMarker = true ∨
               containsSub (readlineFrom c i0) errorMarker = true) := by
            simp only [can_cleanup, hd, if_true, hr, hscan, hss]
            cases ht : containsSub (readlineFrom c i0) totenMarker <;>
              simp [ht]
          rw [hlhs]
          constructor
          · intro hl
            refine ⟨rfl, c, rfl, i0, h0, hocc0, hmax0, ?_⟩
            rcases hl with hl | hl
            · exact Or.inl (containsSub_iff.mp hl)
            · exact Or.inr (containsSub_iff.mp hl)
          · rintro ⟨_, c', hc', i, hi0, hocc, hmax, hcont⟩
            have hcc : c' = c := (Option.some.inj hc').symm
            rw [hcc] at hocc hmax hcont
            have hii : i = i0 := by
              have h1 := hmax0 i hocc
              have h2 := hmax i0 hocc0
              omega
            rw [hii] at hcont
            rcases hcont with hcont | hcont
            · exact Or.inl (containsSub_iff.mpr hcont)
            · exact Or.inr (containsSub_iff.mpr hcont)
        · have hscan : scanLastMarkerLine c = none := by
            rw [scanLastMarkerLine]
            simp only [hf]
            rw [if_neg h0]
          have hss : secondScan c = false := by rw [secondScan, hscan]
          simp only [can_cleanup, hd, if_true, hr, hscan, hss]
          constructor
          · intro hl
            cases hl
          · rintro ⟨_, c', hc', i, hi0, hocc, hmax, _⟩
            have hcc : c' = c := (Option.some.inj hc').symm
            rw [hcc] at hocc hmax
            obtain ⟨hocc0, hmax0⟩ := rfind_eq_some_spec hfm hf
            have hii : i = i0 := by
              have h1 := hmax0 i hocc
              have h2 := hmax i0 hocc0
              omega
            rw [hii] at hi0
            exact absurd hi0 h0

/-- C4 witness: on a realistic terminal OUTCAR (`free  energy   TOTEN  =`
line after a header) `can_cleanup` is true and the characterization
produces the marker position and line content. -/
theorem can_cleanup_spec_witness :
    fsCleanW.isdir "/d" = true ∧
    ∃ c, fsCleanW.read (pjoin "/d" "OUTCAR") = some c ∧
      ∃ i, 0 < i ∧ occursAt c freeEnergyMarker i ∧
        (∀ j, occursAt c freeEnergyMarker j → j ≤ i) ∧
        ((∃ k, occursAt (readlineFrom c i) totenMarker k) ∨
         (∃ k, occursAt (readlineFrom c i) errorMarker k)) :=
  (can_cleanup_spec fsCleanW "/d").mp (by decide)

end Matdb
